import Mathlib

/-!
Shallow embedding of SolarLune/paths (src/paths.go, the current version of the
file: `GetPath`, the `Path` struct with `Cells`/`CurrentIndex`, and the cursor
methods), together with proofs settling the frozen claims C1..C10.

Modelling conventions:
* Go `int` is `Int`; Go `rune` is `Char`; Go slices are `List`s.
* Go compares cells by pointer (`cell == c`, `node.Cell == start`).  Cells of a
  single well-formed grid are pairwise distinct values (their coordinates
  differ), so pointer identity coincides with value identity for the cells the
  library hands out; the embedding therefore identifies cells by value and
  derives decidable equality.
* Fallible operations return `Option`; where Go would panic (slice index out of
  range), the model returns `none` at a clearly documented spot.
* The unbounded `for {}` search loop of `GetPath` is embedded with explicit
  fuel `2*width*height + 2`.  Every enqueue after the initial one inserts a
  cell that was not in `checkedNodes` into `checkedNodes`, and `checkedNodes`
  only ever holds (duplicate-free) cells of the grid, so the loop pops at most
  `1 + width*height` nodes; `getPath_fuel_irrelevant` below proves that on
  well-formed grids extra fuel never changes the result, so the fueled
  embedding computes what the unbounded Go loop computes, and the safety
  lemmas are proved for every fuel value anyway.
-/

namespace PathsLib

/-- Cell mirrors `type Cell struct { X, Y int; Cost int; Walkable bool; Character rune }`. -/
structure Cell where
  x : Int
  y : Int
  cost : Int
  walkable : Bool
  character : Char
deriving DecidableEq, Repr

/-- Grid mirrors `type Grid struct { Data [][]*Cell }`. -/
structure Grid where
  data : List (List Cell)
deriving DecidableEq, Repr

/-- Go `Height()` is `len(m.Data)`. -/
def Grid.goHeight (g : Grid) : Nat := g.data.length

/-- Go `Width()` is `len(m.Data[0])`; on a grid with no rows that expression
panics.  `none` models the panic. -/
def Grid.width0 (g : Grid) : Option Nat := g.data.head?.map List.length

/-- Total variant of the width used inside the search embedding: the length of
the first row, `0` when there is no row (where the Go code would panic). -/
def Grid.goWidth (g : Grid) : Nat := (g.data.head?.getD []).length

/-- Raw lookup of the cell stored at column `x` of row `y` (`m.Data[y][x]`),
`none` when either index is negative or out of range. -/
def Grid.cellAt (g : Grid) (x y : Int) : Option Cell :=
  if 0 ≤ x ∧ 0 ≤ y then (g.data.get? y.toNat).bind (fun row => row.get? x.toNat) else none

/-- Lookup with a dummy default, used only under the bounds guards of the
search loop, where the Go code dereferences the `*Cell` unconditionally.
Note the default is not walkable, so it can never be enqueued. -/
def Grid.cellD (g : Grid) (x y : Int) : Cell :=
  (g.cellAt x y).getD ⟨0, 0, 0, false, ' '⟩

/-- All cells stored in the grid, used to bound the search loop's iteration
count (the fuel-adequacy lemmas below). -/
def Grid.gridCells (g : Grid) : List Cell := g.data.flatten

/-- Faithful model of `func (m *Grid) Get(x, y int) *Cell`.  The outer `none`
models a panic (`m.Width()` indexes `m.Data[0]` on a rowless grid, and the
final `m.Data[y][x]` can be out of range on a ragged grid); `some none` models
returning `nil`; `some (some c)` models returning the cell. -/
def Grid.GoGet (g : Grid) (x y : Int) : Option (Option Cell) :=
  if x < 0 ∨ y < 0 then some none
  else
    match g.width0 with
    | none => none
    | some w =>
      if (w : Int) ≤ x ∨ (g.goHeight : Int) ≤ y then some none
      else
        match g.cellAt x y with
        | none => none
        | some c => some (some c)

/-- A grid is well formed when it has at least one row, every row has the
width of the first row, and the cell stored at column `x` of row `y` records
coordinates `(x, y)`.  Every grid produced by the library's constructors
(`NewGrid`, `NewGridFromStringArrays`, `NewGridFromRuneArrays`) satisfies
this. -/
def Grid.wfB (g : Grid) : Bool :=
  !g.data.isEmpty &&
  g.data.all (fun row => row.length == g.goWidth) &&
  (List.range g.data.length).all (fun j =>
    (List.range g.goWidth).all (fun i =>
      match (g.data.get? j).bind (fun row => row.get? i) with
      | some c => c.x == (i : Int) && c.y == (j : Int)
      | none => false))

def Grid.WellFormed (g : Grid) : Prop := g.wfB = true

instance (g : Grid) : Decidable g.WellFormed :=
  inferInstanceAs (Decidable (g.wfB = true))

/-- Mirrors `func NewGrid(width, height int) *Grid`: cost 1, walkable, blank
character, coordinates recorded in each cell. -/
def NewGrid (width height : Nat) : Grid :=
  ⟨(List.range height).map (fun y =>
    (List.range width).map (fun x => ⟨x, y, 1, true, ' '⟩))⟩

/-- Path mirrors `type Path struct { Cells []*Cell; CurrentIndex int }`. -/
structure Path where
  cells : List Cell
  currentIndex : Int
deriving DecidableEq, Repr

/-- Mirrors `func (p *Path) Valid() bool { return len(p.Cells) > 0 }`. -/
def Path.Valid (p : Path) : Bool := decide (0 < p.cells.length)

/-- Go slice indexing `p.Cells[i]`: `none` models the index-out-of-range
panic (Go has no non-crashing "absent" result for this expression). -/
def Path.indexCells (p : Path) (i : Int) : Option Cell :=
  if i < 0 then none else p.cells.get? i.toNat

/-- Mirrors `func (p *Path) Current() *Cell { return p.Cells[p.CurrentIndex] }`. -/
def Path.Current (p : Path) : Option Cell := p.indexCells p.currentIndex

/-- Mirrors `Next()`: increment `CurrentIndex`, clamp to `len(p.Cells)-1`,
then return `p.Cells[p.CurrentIndex]` (the `Option` result models the panic on
an out-of-range index, e.g. index `-1` on an empty path). -/
def Path.Next (p : Path) : Path × Option Cell :=
  let i0 := p.currentIndex + 1
  let i := if (p.cells.length : Int) ≤ i0 then (p.cells.length : Int) - 1 else i0
  (⟨p.cells, i⟩, Path.indexCells ⟨p.cells, i⟩ i)

/-- Mirrors `Prev()`: decrement `CurrentIndex`, clamp to `0`, then return
`p.Cells[p.CurrentIndex]`. -/
def Path.Prev (p : Path) : Path × Option Cell :=
  let i0 := p.currentIndex - 1
  let i := if i0 < 0 then 0 else i0
  (⟨p.cells, i⟩, Path.indexCells ⟨p.cells, i⟩ i)

/-- Mirrors `func (p *Path) Restart() { p.CurrentIndex = 0 }`. -/
def Path.Restart (p : Path) : Path := ⟨p.cells, 0⟩

/-- The loop body of `Reverse`: `for c := len(p.Cells)-1; c >= 0; c-- { np =
append(np, p.Cells[c]) }` produces the cells from last to first. -/
def revCells : List Cell → List Cell
  | [] => []
  | c :: cs => revCells cs ++ [c]

/-- Mirrors `func (p *Path) Reverse()`; note the source leaves `CurrentIndex`
untouched (`p.Restart()` is commented out). -/
def Path.Reverse (p : Path) : Path := ⟨revCells p.cells, p.currentIndex⟩

/-- Search node, mirroring `type Node struct { Cell *Cell; Parent *Node;
Cost int }` local to `GetPath`.  A `nil` parent is the `root` constructor.
The cost type is a parameter so that the same node shape serves both the
source's `int`-cost search and the spec-modelled rational-cost search. -/
inductive SNode (κ : Type) : Type where
  | root (cell : Cell) (cost : κ)
  | child (cell : Cell) (parent : SNode κ) (cost : κ)
deriving DecidableEq, Repr

namespace SNode

def cell {κ : Type} : SNode κ → Cell
  | .root c _ => c
  | .child c _ _ => c

def cost {κ : Type} : SNode κ → κ
  | .root _ k => k
  | .child _ _ k => k

/-- Go's path reconstruction: `for true { path.Cells = append(path.Cells,
t.Cell); t = t.Parent; if t == nil { break } }` collects the node's cell and
then its ancestors' cells in order. -/
def chain {κ : Type} : SNode κ → List Cell
  | .root c _ => [c]
  | .child c p _ => c :: p.chain

def rootCell {κ : Type} : SNode κ → Cell
  | .root c _ => c
  | .child _ p _ => p.rootCell

def isChild {κ : Type} : SNode κ → Bool
  | .root _ _ => false
  | .child _ _ _ => true

end SNode

/-- Insertion into a cost-sorted frontier.  The source uses Go's
`sort.Slice(openNodes, func(i, j) bool { return openNodes[i].Cost <
openNodes[j].Cost })`, whose result order among equal costs is unspecified;
the embedding fixes the stable insertion-sort realization of that comparator.
No theorem below depends on the tie order. -/
def insertByCost {κ : Type} [LT κ] [DecidableRel ((· < ·) : κ → κ → Prop)]
    (n : SNode κ) : List (SNode κ) → List (SNode κ)
  | [] => [n]
  | m :: ms => if n.cost < m.cost then n :: m :: ms else m :: insertByCost n ms

def sortByCost {κ : Type} [LT κ] [DecidableRel ((· < ·) : κ → κ → Prop)] :
    List (SNode κ) → List (SNode κ)
  | [] => []
  | n :: ns => insertByCost n (sortByCost ns)

/-- One guarded enqueue of `GetPath`: `n := &Node{c, node, c.Cost + node.Cost};
if n.Cell.Walkable && !hasBeenAdded(n.Cell) { openNodes = append(openNodes, n);
checkedNodes = append(checkedNodes, n.Cell) }`. -/
def tryAdd (node : SNode Int) (c : Cell) (st : List (SNode Int) × List Cell) :
    List (SNode Int) × List Cell :=
  if c.walkable = true ∧ c ∉ st.2 then
    (st.1 ++ [SNode.child c node (c.cost + node.cost)], st.2 ++ [c])
  else st

/-- The candidate neighbor cells processed by the body of the `GetPath` loop,
in source order (left, right, up, down, then with `diagonals` the four
diagonals), each under its bounds guard.  Inside a guard the source fetches
`m.Get(..)` and dereferences it unconditionally; `cellD` is that lookup. -/
def nbrCells (g : Grid) (diagonals : Bool) (b : Cell) : List Cell :=
  (if 0 < b.x then [g.cellD (b.x - 1) b.y] else []) ++
  (if b.x < (g.goWidth : Int) - 1 then [g.cellD (b.x + 1) b.y] else []) ++
  (if 0 < b.y then [g.cellD b.x (b.y - 1)] else []) ++
  (if b.y < (g.goHeight : Int) - 1 then [g.cellD b.x (b.y + 1)] else []) ++
  (if diagonals then
    (if 0 < b.x ∧ 0 < b.y then [g.cellD (b.x - 1) (b.y - 1)] else []) ++
    (if b.x < (g.goWidth : Int) - 1 ∧ 0 < b.y then [g.cellD (b.x + 1) (b.y - 1)] else []) ++
    (if 0 < b.x ∧ b.y < (g.goHeight : Int) - 1 then [g.cellD (b.x - 1) (b.y + 1)] else []) ++
    (if b.x < (g.goWidth : Int) - 1 ∧ b.y < (g.goHeight : Int) - 1 then
      [g.cellD (b.x + 1) (b.y + 1)] else [])
  else [])

/-- The neighbor-enqueueing part of the `GetPath` loop body applied to the
popped node, acting on the pair (remaining open nodes, checked cells). -/
def expand (g : Grid) (node : SNode Int) (diagonals : Bool)
    (st : List (SNode Int) × List Cell) : List (SNode Int) × List Cell :=
  (nbrCells g diagonals node.cell).foldl (fun s c => tryAdd node c s) st

/-- The `for {}` loop of `GetPath` with explicit fuel: pop the head of
`openNodes`; if its cell is `start`, reconstruct the path along the parent
chain; otherwise enqueue the neighbors and re-sort by cost. -/
def getPathLoop (g : Grid) (start : Cell) (diagonals : Bool) :
    Nat → List (SNode Int) → List Cell → List Cell
  | 0, _, _ => []
  | _ + 1, [], _ => []
  | fuel + 1, node :: rest, checked =>
    if node.cell = start then node.chain
    else
      let st := expand g node diagonals (rest, checked)
      getPathLoop g start diagonals fuel (sortByCost st.1) st.2

/-- Mirrors `func (m *Grid) GetPath(start, dest *Cell, diagonals bool) *Path`:
the open list starts as `[{Cell: dest, Cost: dest.Cost}]`, a non-walkable
destination returns the empty path immediately, and the result is wrapped in a
`Path` with `CurrentIndex` 0. -/
def Grid.GetPath (g : Grid) (start dest : Cell) (diagonals : Bool) : Path :=
  if dest.walkable = true then
    ⟨getPathLoop g start diagonals (2 * g.goWidth * g.goHeight + 2)
      [SNode.root dest dest.cost] [], 0⟩
  else ⟨[], 0⟩

/-- State-passing form of the same loop, threading the grid through every
iteration exactly as the Go loop body does (the body only reads `m`; no
statement assigns to `m.Data` or to any cell field).  Used to settle the
frame claim C9. -/
def getPathLoopS (start : Cell) (diagonals : Bool) :
    Nat → Grid × List (SNode Int) × List Cell → Grid × List Cell
  | 0, st => (st.1, [])
  | _ + 1, (g, [], _) => (g, [])
  | fuel + 1, (g, node :: rest, checked) =>
    if node.cell = start then (g, node.chain)
    else
      let st := expand g node diagonals (rest, checked)
      getPathLoopS start diagonals fuel (g, sortByCost st.1, st.2)

/-- State-passing form of `GetPath`, returning the grid alongside the path. -/
def Grid.GetPathS (g : Grid) (start dest : Cell) (diagonals : Bool) : Grid × Path :=
  if dest.walkable = true then
    let r := getPathLoopS start diagonals (2 * g.goWidth * g.goHeight + 2)
      (g, [SNode.root dest dest.cost], [])
    (r.1, ⟨r.2, 0⟩)
  else (g, ⟨[], 0⟩)

/-!
Invariant of the search loop.  Every node of the open list has a parent chain
of walkable cells rooted at `dest`; all chain cells other than the root sit in
`checkedNodes`; the chain is duplicate-free except that `dest` — the one cell
that is enqueued initially without being recorded in `checkedNodes`, and can
therefore be enqueued a second time as a neighbor — may recur at the head.
Such a re-enqueued `dest` node can never contribute new children, because by
the time it exists every walkable neighbor of `dest` is already checked.
-/
structure NodeOK (g : Grid) (diag : Bool) (dest : Cell) (checked : List Cell)
    (n : SNode Int) : Prop where
  walk : ∀ c ∈ n.chain, c.walkable = true
  rootc : n.rootCell = dest
  tailNodup : n.chain.tail.Nodup
  headNotTail : n.cell ∉ n.chain.tail ∨ n.cell = dest
  subChecked : ∀ c ∈ n.chain, c ∈ checked ∨ c = dest
  destNbrs : n.isChild = true →
    ∀ c ∈ nbrCells g diag dest, c.walkable = true → c ∈ checked

structure Inv (g : Grid) (diag : Bool) (start dest : Cell)
    (op : List (SNode Int)) (checked : List Cell) : Prop where
  nodes : ∀ n ∈ op, NodeOK g diag dest checked n
  rootsDest : ∀ n ∈ op, n.isChild = false → n.cell = dest
  startEqDest : start = dest → ∀ n ∈ op, n.isChild = false

/-!
The `wallsBlockDiagonals` search of claim C4.  The repository's source files
do not contain it: `src/paths.go` only has `GetPath(start, dest, diagonals)`,
while `src/paths_test.go` calls a `GetPathFromCells(start, dest, diagonals,
wallsBlockDiagonals)` that is absent from `src/`.  The definitions below are
therefore modelled from spec §4.2 (`findPath`), not translated from source.
-/
/-- Modelled from the spec: the fixed diagonal penalty 0.414 of §4.2 step 3c
of the `findPath` operation missing from `src/` (costs there are reals, hence
`ℚ` here). -/
def diagPenalty : ℚ := 414 / 1000

/-- Modelled from the spec: walkability of the cell at a coordinate, with
absent (out-of-bounds) cells counting as not walkable, as used by the
corner-blocking rule of the `findPath` operation missing from `src/`. -/
def walkableAt (g : Grid) (x y : Int) : Bool :=
  ((g.cellAt x y).map Cell.walkable).getD false

/-- Modelled from the spec: the four orthogonal neighbor offsets
(dx, dy, isDiagonal) of §4.2 step 3c. -/
def specOrthOffsets : List (Int × Int × Bool) :=
  [(-1, 0, false), (1, 0, false), (0, -1, false), (0, 1, false)]

/-- Modelled from the spec: the four diagonal neighbor offsets of §4.2 step 3c. -/
def specDiagOffsets : List (Int × Int × Bool) :=
  [(-1, -1, true), (1, -1, true), (-1, 1, true), (1, 1, true)]

/-- Modelled from the spec: the corner-blocking gate of §4.2 step 3c — when
`wallsBlockDiagonals` is true, a diagonal neighbor is only enqueued if both
orthogonal cells adjacent to it (for the up-left diagonal: the up cell and
the left cell) are walkable. -/
def specStepOK (g : Grid) (wallsBlock : Bool) (b : Cell) (dx dy : Int)
    (isDiag : Bool) : Bool :=
  !isDiag || !wallsBlock || (walkableAt g (b.x + dx) b.y && walkableAt g b.x (b.y + dy))

/-- Modelled from the spec: one neighbor consideration of §4.2 step 3c of the
`findPath` operation missing from `src/` — bounds-checked lookup, skip if not
walkable or already visited or corner-blocked, accumulated cost = neighbor
cost + current cost (+ diagonal penalty), mark visited and push. -/
def specTryAdd (g : Grid) (wallsBlock : Bool) (node : SNode ℚ) (o : Int × Int × Bool)
    (st : List (SNode ℚ) × List Cell) : List (SNode ℚ) × List Cell :=
  match g.cellAt (node.cell.x + o.1) (node.cell.y + o.2.1) with
  | none => st
  | some c =>
    if c.walkable = true ∧ c ∉ st.2 ∧
        specStepOK g wallsBlock node.cell o.1 o.2.1 o.2.2 = true then
      (st.1 ++ [SNode.child c node
        ((c.cost : ℚ) + node.cost + (if o.2.2 = true then diagPenalty else 0))],
       st.2 ++ [c])
    else st

/-- Modelled from the spec: the expansion step of §4.2 step 3 — the four
orthogonal neighbors, plus the four diagonal ones when `diagonals` is on. -/
def specExpand (g : Grid) (diagonals wallsBlock : Bool) (node : SNode ℚ)
    (st : List (SNode ℚ) × List Cell) : List (SNode ℚ) × List Cell :=
  (specOrthOffsets ++ if diagonals then specDiagOffsets else []).foldl
    (fun s o => specTryAdd g wallsBlock node o s) st

/-- Modelled from the spec: the frontier loop of §4.2 steps 3-4 of the
`findPath` operation missing from `src/`, with explicit fuel; `none` is the
"no path" outcome. -/
def findPathLoop (g : Grid) (start : Cell) (diagonals wallsBlock : Bool) :
    Nat → List (SNode ℚ) → List Cell → Option (List Cell)
  | 0, _, _ => none
  | _ + 1, [], _ => none
  | fuel + 1, node :: rest, checked =>
    if node.cell = start then some node.chain
    else
      let st := specExpand g diagonals wallsBlock node (rest, checked)
      findPathLoop g start diagonals wallsBlock fuel (sortByCost st.1) st.2

/-- Modelled from the spec: `findPath(grid, start, dest, diagonals,
wallsBlockDiagonals) -> Option<Path>` of §4.2, the operation missing from
`src/` (the tests call it as `GetPathFromCells`): non-walkable endpoints
short-circuit to "no path", the frontier starts at the destination with
accumulated cost `dest.cost`. -/
def findPath (g : Grid) (start dest : Cell) (diagonals wallsBlock : Bool) :
    Option Path :=
  if start.walkable = true ∧ dest.walkable = true then
    (findPathLoop g start diagonals wallsBlock (2 * g.goWidth * g.goHeight + 2)
      [SNode.root dest (dest.cost : ℚ)] []).map (fun cs => ⟨cs, 0⟩)
  else none

/-- A diagonal step between two cells: both coordinates differ by exactly 1. -/
def diagStep (a b : Cell) : Prop :=
  (a.x - b.x = 1 ∨ a.x - b.x = -1) ∧ (a.y - b.y = 1 ∨ a.y - b.y = -1)

/-- The two orthogonal cells flanking the diagonal step between `a` and `b`
are not both non-walkable. -/
def cornerOK (g : Grid) (a b : Cell) : Prop :=
  walkableAt g a.x b.y = true ∨ walkableAt g b.x a.y = true

/-- Invariant of the modelled search: every chain cell really is the grid's
cell at its coordinates, and consecutive chain cells never make a blocked
diagonal step. -/
def SpecNodeOK (g : Grid) (n : SNode ℚ) : Prop :=
  (∀ c ∈ n.chain, g.cellAt c.x c.y = some c) ∧
  List.Chain' (fun a b => diagStep a b → cornerOK g a b) n.chain

lemma revCells_eq_reverse : ∀ l : List Cell, revCells l = l.reverse := by
  intro l
  induction l with
  | nil => rfl
  | cons c cs ih => simp [revCells, ih]

lemma SNode.chain_ne_nil {κ : Type} (n : SNode κ) : n.chain ≠ [] := by
  cases n <;> simp [chain]

lemma SNode.chain_head? {κ : Type} (n : SNode κ) : n.chain.head? = some n.cell := by
  cases n <;> simp [chain, cell]

lemma SNode.chain_eq_cons {κ : Type} (n : SNode κ) :
    n.chain = n.cell :: n.chain.tail := by
  cases n <;> simp [chain, cell]

lemma SNode.chain_tail_root {κ : Type} (c : Cell) (k : κ) :
    (SNode.root c k : SNode κ).chain.tail = [] := rfl

lemma SNode.chain_tail_child {κ : Type} (c : Cell) (p : SNode κ) (k : κ) :
    (SNode.child c p k).chain.tail = p.chain := rfl

lemma SNode.chain_getLast? {κ : Type} (n : SNode κ) :
    n.chain.getLast? = some n.rootCell := by
  induction n with
  | root c k => rfl
  | child c p k ih =>
    have hne := chain_ne_nil p
    rw [chain, rootCell]
    cases hp : p.chain with
    | nil => exact absurd hp hne
    | cons q qs =>
      rw [List.getLast?_cons_cons]
      rw [hp] at ih
      exact ih

lemma SNode.chain_of_not_isChild {κ : Type} (n : SNode κ) (h : n.isChild = false) :
    n.chain = [n.cell] := by
  cases n with
  | root c k => rfl
  | child c p k => simp [isChild] at h

lemma mem_insertByCost {κ : Type} [LT κ] [DecidableRel ((· < ·) : κ → κ → Prop)]
    (a n : SNode κ) : ∀ l : List (SNode κ), a ∈ insertByCost n l ↔ a = n ∨ a ∈ l := by
  intro l
  induction l with
  | nil => simp [insertByCost]
  | cons m ms ih =>
    by_cases h : n.cost < m.cost
    · simp [insertByCost, h]
    · simp only [insertByCost, if_neg h, List.mem_cons, ih]
      tauto

lemma mem_sortByCost {κ : Type} [LT κ] [DecidableRel ((· < ·) : κ → κ → Prop)]
    (a : SNode κ) : ∀ l : List (SNode κ), a ∈ sortByCost l ↔ a ∈ l := by
  intro l
  induction l with
  | nil => simp [sortByCost]
  | cons n ns ih => simp [sortByCost, mem_insertByCost, ih]

lemma NodeOK.mono {g : Grid} {diag : Bool} {dest : Cell} {ch ch' : List Cell}
    {n : SNode Int} (h : NodeOK g diag dest ch n) (hsub : ∀ c ∈ ch, c ∈ ch') :
    NodeOK g diag dest ch' n := by
  refine ⟨h.walk, h.rootc, h.tailNodup, h.headNotTail, ?_, ?_⟩
  · intro c hc
    rcases h.subChecked c hc with hin | hd
    · exact Or.inl (hsub c hin)
    · exact Or.inr hd
  · intro hch c hc hw
    exact hsub c (h.destNbrs hch c hc hw)

/-- What a fold of guarded enqueues does: `checkedNodes` grows monotonically,
every walkable candidate ends up checked, and every node of the resulting open
list is either an old node or a fresh child of the expanded node built from a
walkable, previously unchecked candidate. -/
lemma foldTryAdd_spec (node : SNode Int) :
    ∀ (L : List Cell) (op : List (SNode Int)) (ch : List Cell),
      (∀ c ∈ ch, c ∈ (L.foldl (fun s c => tryAdd node c s) (op, ch)).2) ∧
      (∀ c ∈ L, c.walkable = true →
        c ∈ (L.foldl (fun s c => tryAdd node c s) (op, ch)).2) ∧
      (∀ n ∈ (L.foldl (fun s c => tryAdd node c s) (op, ch)).1,
        n ∈ op ∨ ∃ c, c ∈ L ∧ c.walkable = true ∧ c ∉ ch ∧
          n = SNode.child c node (c.cost + node.cost) ∧
          c ∈ (L.foldl (fun s c => tryAdd node c s) (op, ch)).2) := by
  intro L
  induction L with
  | nil =>
    intro op ch
    refine ⟨fun c hc => hc, ?_, fun n hn => Or.inl hn⟩
    intro c hc
    exact absurd hc (List.not_mem_nil c)
  | cons c₀ L' ih =>
    intro op ch
    rw [List.foldl_cons]
    by_cases h : c₀.walkable = true ∧ c₀ ∉ ch
    · rw [show tryAdd node c₀ (op, ch) =
        (op ++ [SNode.child c₀ node (c₀.cost + node.cost)], ch ++ [c₀]) from by
          rw [tryAdd, if_pos h]]
      obtain ⟨ih1, ih2, ih3⟩ := ih (op ++ [SNode.child c₀ node (c₀.cost + node.cost)]) (ch ++ [c₀])
      refine ⟨?_, ?_, ?_⟩
      · intro c hc
        exact ih1 c (List.mem_append_left _ hc)
      · intro c hc hw
        rcases List.mem_cons.mp hc with rfl | hc'
        · exact ih1 c (List.mem_append_right _ (List.mem_singleton.mpr rfl))
        · exact ih2 c hc' hw
      · intro n hn
        rcases ih3 n hn with hold | ⟨c, hcL, hcw, hcch, hne, hcr⟩
        · rcases List.mem_append.mp hold with hop | hnew
          · exact Or.inl hop
          · refine Or.inr ⟨c₀, List.mem_cons_self _ _, h.1, h.2,
              List.mem_singleton.mp hnew, ?_⟩
            exact ih1 c₀ (List.mem_append_right _ (List.mem_singleton.mpr rfl))
        · refine Or.inr ⟨c, List.mem_cons_of_mem _ hcL, hcw, ?_, hne, hcr⟩
          intro hcch'
          exact hcch (List.mem_append_left _ hcch')
    · rw [show tryAdd node c₀ (op, ch) = (op, ch) from by rw [tryAdd, if_neg h]]
      obtain ⟨ih1, ih2, ih3⟩ := ih op ch
      refine ⟨ih1, ?_, ?_⟩
      · intro c hc hw
        rcases List.mem_cons.mp hc with rfl | hc'
        · have hcin : c ∈ ch := by
            by_contra hno
            exact h ⟨hw, hno⟩
          exact ih1 c hcin
        · exact ih2 c hc' hw
      · intro n hn
        rcases ih3 n hn with hold | ⟨c, hcL, hrest⟩
        · exact Or.inl hold
        · exact Or.inr ⟨c, List.mem_cons_of_mem _ hcL, hrest⟩

lemma inv_step (g : Grid) (diag : Bool) (start dest : Cell) (n₀ : SNode Int)
    (rest : List (SNode Int)) (checked : List Cell)
    (hInv : Inv g diag start dest (n₀ :: rest) checked)
    (hne : n₀.cell ≠ start) :
    Inv g diag start dest (sortByCost (expand g n₀ diag (rest, checked)).1)
      (expand g n₀ diag (rest, checked)).2 := by
  have hn₀ : NodeOK g diag dest checked n₀ := hInv.nodes n₀ (List.mem_cons_self _ _)
  have hsd : start ≠ dest := by
    intro h
    have hroot := hInv.startEqDest h n₀ (List.mem_cons_self _ _)
    have hcell := hInv.rootsDest n₀ (List.mem_cons_self _ _) hroot
    exact hne (by rw [hcell, h])
  obtain ⟨hmono, hcov, hopen⟩ :=
    foldTryAdd_spec n₀ (nbrCells g diag n₀.cell) rest checked
  have hexp : expand g n₀ diag (rest, checked) =
      (nbrCells g diag n₀.cell).foldl (fun s c => tryAdd n₀ c s) (rest, checked) := rfl
  rw [hexp]
  refine ⟨?_, ?_, ?_⟩
  · intro n hn
    rw [mem_sortByCost] at hn
    rcases hopen n hn with hold | ⟨c, hcL, hcw, hcch, hneq, hcr⟩
    · exact (hInv.nodes n (List.mem_cons_of_mem _ hold)).mono hmono
    · subst hneq
      have hchain : (SNode.child c n₀ (c.cost + n₀.cost)).chain = c :: n₀.chain := rfl
      refine ⟨?_, ?_, ?_, ?_, ?_, ?_⟩
      · intro x hx
        rw [hchain] at hx
        rcases List.mem_cons.mp hx with rfl | hx'
        · exact hcw
        · exact hn₀.walk x hx'
      · show n₀.rootCell = dest
        exact hn₀.rootc
      · show n₀.chain.Nodup
        by_cases hdt : n₀.cell ∈ n₀.chain.tail
        · exfalso
          have hdest : n₀.cell = dest :=
            (hn₀.headNotTail).resolve_left (fun hno => hno hdt)
          have hchild : n₀.isChild = true := by
            cases n₀ with
            | root c' k =>
              rw [SNode.chain_tail_root] at hdt
              exact absurd hdt (List.not_mem_nil _)
            | child c' p k => rfl
          have hcL' : c ∈ nbrCells g diag dest := hdest ▸ hcL
          exact hcch (hn₀.destNbrs hchild c hcL' hcw)
        · rw [SNode.chain_eq_cons n₀]
          exact List.nodup_cons.mpr ⟨hdt, hn₀.tailNodup⟩
      · show c ∉ n₀.chain ∨ c = dest
        by_cases hcd : c = dest
        · exact Or.inr hcd
        · refine Or.inl (fun hmem => ?_)
          rcases hn₀.subChecked c hmem with hin | hd
          · exact hcch hin
          · exact hcd hd
      · intro x hx
        rw [hchain] at hx
        rcases List.mem_cons.mp hx with rfl | hx'
        · exact Or.inl hcr
        · rcases hn₀.subChecked x hx' with hin | hd
          · exact Or.inl (hmono x hin)
          · exact Or.inr hd
      · intro _ c' hc' hw'
        by_cases hd0 : n₀.cell = dest
        · exact hcov c' (by rw [hd0]; exact hc') hw'
        · cases hch0 : n₀.isChild with
          | false => exact absurd (hInv.rootsDest n₀ (List.mem_cons_self _ _) hch0) hd0
          | true => exact hmono c' (hn₀.destNbrs hch0 c' hc' hw')
  · intro n hn hroot
    rw [mem_sortByCost] at hn
    rcases hopen n hn with hold | ⟨c, _, _, _, hneq, _⟩
    · exact hInv.rootsDest n (List.mem_cons_of_mem _ hold) hroot
    · subst hneq
      simp [SNode.isChild] at hroot
  · intro h
    exact absurd h hsd

lemma inv_init (g : Grid) (diag : Bool) (start dest : Cell)
    (hw : dest.walkable = true) :
    Inv g diag start dest [SNode.root dest dest.cost] [] := by
  refine ⟨?_, ?_, ?_⟩
  · intro n hn
    rw [List.mem_singleton] at hn
    subst hn
    refine ⟨?_, rfl, ?_, ?_, ?_, ?_⟩
    · intro c hc
      rw [show (SNode.root dest dest.cost).chain = [dest] from rfl,
        List.mem_singleton] at hc
      subst hc
      exact hw
    · rw [SNode.chain_tail_root]
      exact List.nodup_nil
    · rw [SNode.chain_tail_root]
      exact Or.inl (List.not_mem_nil _)
    · intro c hc
      rw [show (SNode.root dest dest.cost).chain = [dest] from rfl,
        List.mem_singleton] at hc
      exact Or.inr hc
    · intro hch
      simp [SNode.isChild] at hch
  · intro n hn _
    rw [List.mem_singleton] at hn
    subst hn
    rfl
  · intro _ n hn
    rw [List.mem_singleton] at hn
    subst hn
    rfl

lemma loop_sound (g : Grid) (diag : Bool) (start dest : Cell) :
    ∀ (fuel : Nat) (op : List (SNode Int)) (checked : List Cell),
      Inv g diag start dest op checked →
      getPathLoop g start diag fuel op checked ≠ [] →
      (getPathLoop g start diag fuel op checked).head? = some start ∧
      (getPathLoop g start diag fuel op checked).getLast? = some dest ∧
      (getPathLoop g start diag fuel op checked).Nodup ∧
      ∀ c ∈ getPathLoop g start diag fuel op checked, c.walkable = true := by
  intro fuel
  induction fuel with
  | zero =>
    intro op checked _ hne
    exact absurd rfl hne
  | succ fuel ih =>
    intro op checked hInv hne
    cases op with
    | nil => exact absurd rfl hne
    | cons n₀ rest =>
      by_cases h : n₀.cell = start
      · have hres : getPathLoop g start diag (fuel + 1) (n₀ :: rest) checked = n₀.chain := by
          rw [getPathLoop, if_pos h]
        rw [hres] at hne ⊢
        have hn₀ := hInv.nodes n₀ (List.mem_cons_self _ _)
        refine ⟨?_, ?_, ?_, hn₀.walk⟩
        · rw [SNode.chain_head?, h]
        · rw [SNode.chain_getLast?, hn₀.rootc]
        · by_cases hsd : start = dest
          · have hroot := hInv.startEqDest hsd n₀ (List.mem_cons_self _ _)
            rw [SNode.chain_of_not_isChild n₀ hroot]
            exact List.nodup_singleton _
          · have hnd : n₀.cell ≠ dest := by
              rw [h]
              exact hsd
            have hht := (hn₀.headNotTail).resolve_right hnd
            rw [SNode.chain_eq_cons n₀]
            exact List.nodup_cons.mpr ⟨hht, hn₀.tailNodup⟩
      · have hres : getPathLoop g start diag (fuel + 1) (n₀ :: rest) checked =
            getPathLoop g start diag fuel
              (sortByCost (expand g n₀ diag (rest, checked)).1)
              (expand g n₀ diag (rest, checked)).2 := by
          rw [getPathLoop, if_neg h]
        rw [hres] at hne ⊢
        exact ih _ _ (inv_step g diag start dest n₀ rest checked hInv h) hne

/-- Soundness of `GetPath` packaged at the public entry point: a non-empty
result starts at `start`, ends at `dest`, repeats no cell, and holds only
walkable cells. -/
lemma getPath_sound (g : Grid) (start dest : Cell) (diag : Bool)
    (h : (g.GetPath start dest diag).cells ≠ []) :
    ((g.GetPath start dest diag).cells).head? = some start ∧
    ((g.GetPath start dest diag).cells).getLast? = some dest ∧
    ((g.GetPath start dest diag).cells).Nodup ∧
    ∀ c ∈ (g.GetPath start dest diag).cells, c.walkable = true := by
  by_cases hw : dest.walkable = true
  · have hc : (g.GetPath start dest diag).cells =
        getPathLoop g start diag (2 * g.goWidth * g.goHeight + 2)
          [SNode.root dest dest.cost] [] := by
      rw [Grid.GetPath, if_pos hw]
    rw [hc] at h ⊢
    exact loop_sound g diag start dest _ _ _ (inv_init g diag start dest hw) h
  · exfalso
    apply h
    rw [Grid.GetPath, if_neg hw]

lemma getPathLoopS_fst (start : Cell) (diag : Bool) :
    ∀ (fuel : Nat) (st : Grid × List (SNode Int) × List Cell),
      (getPathLoopS start diag fuel st).1 = st.1 := by
  intro fuel
  induction fuel with
  | zero => intro st; rfl
  | succ fuel ih =>
    intro st
    obtain ⟨g, op, checked⟩ := st
    cases op with
    | nil => rfl
    | cons n₀ rest =>
      by_cases h : n₀.cell = start
      · rw [getPathLoopS, if_pos h]
      · rw [getPathLoopS, if_neg h]
        exact ih _

/-- The state-passing loop computes the same path as the pure loop. -/
lemma getPathLoopS_snd (g : Grid) (start : Cell) (diag : Bool) :
    ∀ (fuel : Nat) (op : List (SNode Int)) (checked : List Cell),
      (getPathLoopS start diag fuel (g, op, checked)).2 =
        getPathLoop g start diag fuel op checked := by
  intro fuel
  induction fuel with
  | zero => intro op checked; rfl
  | succ fuel ih =>
    intro op checked
    cases op with
    | nil => rfl
    | cons n₀ rest =>
      by_cases h : n₀.cell = start
      · rw [getPathLoopS, getPathLoop, if_pos h, if_pos h]
      · rw [getPathLoopS, getPathLoop, if_neg h, if_neg h]
        exact ih _ _

/-- `GetPathS` refines `GetPath`: same path, grid carried through. -/
lemma getPathS_eq (g : Grid) (start dest : Cell) (diag : Bool) :
    g.GetPathS start dest diag = (g, g.GetPath start dest diag) := by
  rw [Grid.GetPathS, Grid.GetPath]
  by_cases hw : dest.walkable = true
  · rw [if_pos hw, if_pos hw]
    have h1 := getPathLoopS_fst start diag (2 * g.goWidth * g.goHeight + 2)
      (g, [SNode.root dest dest.cost], [])
    have h2 := getPathLoopS_snd g start diag (2 * g.goWidth * g.goHeight + 2)
      [SNode.root dest dest.cost] []
    show (_, (⟨_, 0⟩ : Path)) = (g, (⟨_, 0⟩ : Path))
    rw [h1, h2]
  · rw [if_neg hw, if_neg hw]

/-- C1: for every successful search (GetPath returns a non-empty Path), the
Path's cell sequence is ordered start first and destination last: the
reconstruction walks the parent chain from the found start-node up to the
destination-rooted node and that collected order is the final Path order,
with no separate reversal step applied. -/
theorem getPath_head_start_getLast_dest (g : Grid) (start dest : Cell) (diag : Bool)
    (h : (g.GetPath start dest diag).cells ≠ []) :
    ((g.GetPath start dest diag).cells).head? = some start ∧
    ((g.GetPath start dest diag).cells).getLast? = some dest :=
  ⟨(getPath_sound g start dest diag h).1, (getPath_sound g start dest diag h).2.1⟩

/-- Witness for C1 at a concrete input: on a fully walkable 2x1 grid the search
from (0,0) to (1,0) succeeds, and the path runs start first, destination last. -/
theorem getPath_head_start_getLast_dest_witness :
    ((Grid.mk [[⟨0, 0, 1, true, ' '⟩, ⟨1, 0, 1, true, ' '⟩]]).GetPath
        ⟨0, 0, 1, true, ' '⟩ ⟨1, 0, 1, true, ' '⟩ false).cells ≠ [] ∧
    (((Grid.mk [[⟨0, 0, 1, true, ' '⟩, ⟨1, 0, 1, true, ' '⟩]]).GetPath
        ⟨0, 0, 1, true, ' '⟩ ⟨1, 0, 1, true, ' '⟩ false).cells).head? =
      some ⟨0, 0, 1, true, ' '⟩ ∧
    (((Grid.mk [[⟨0, 0, 1, true, ' '⟩, ⟨1, 0, 1, true, ' '⟩]]).GetPath
        ⟨0, 0, 1, true, ' '⟩ ⟨1, 0, 1, true, ' '⟩ false).cells).getLast? =
      some ⟨1, 0, 1, true, ' '⟩ :=
  ⟨by decide,
   (getPath_head_start_getLast_dest _ _ _ false (by decide)).1,
   (getPath_head_start_getLast_dest _ _ _ false (by decide)).2⟩

/-- C2: if either the start cell or the destination cell is not walkable,
GetPath returns a Path with no cells.  A non-walkable destination is rejected
up front; a non-walkable start can never be enqueued (every enqueue is guarded
by `n.Cell.Walkable`), so the reconstruction branch never fires. -/
theorem getPath_unwalkable_endpoint_empty (g : Grid) (start dest : Cell) (diag : Bool)
    (h : start.walkable = false ∨ dest.walkable = false) :
    (g.GetPath start dest diag).cells = [] := by
  rcases h with hs | hd
  · by_contra hne
    obtain ⟨hhead, _, _, hwalk⟩ := getPath_sound g start dest diag hne
    have hmem : start ∈ (g.GetPath start dest diag).cells :=
      List.mem_of_mem_head? (by rw [hhead]; rfl)
    have := hwalk start hmem
    rw [hs] at this
    exact Bool.false_ne_true this
  · rw [Grid.GetPath, if_neg (by rw [hd]; exact Bool.false_ne_true)]

/-- Witness for C2 at a concrete input: a 1x1 grid whose only cell is not
walkable yields the empty path. -/
theorem getPath_unwalkable_endpoint_empty_witness :
    ((⟨0, 0, 1, false, ' '⟩ : Cell).walkable = false ∨
      (⟨0, 0, 1, false, ' '⟩ : Cell).walkable = false) ∧
    ((Grid.mk [[⟨0, 0, 1, false, ' '⟩]]).GetPath
      ⟨0, 0, 1, false, ' '⟩ ⟨0, 0, 1, false, ' '⟩ true).cells = [] :=
  ⟨Or.inl rfl,
   getPath_unwalkable_endpoint_empty _ _ _ true (Or.inl rfl)⟩

/-- C6: if start and destination are the same cell and that cell is walkable,
GetPath returns a Path of length exactly one containing exactly that cell:
the destination-rooted node is popped in the very first iteration and its
cell equals start, so the reconstructed chain is the single cell. -/
theorem getPath_start_eq_dest_singleton (g : Grid) (dest : Cell) (diag : Bool)
    (hw : dest.walkable = true) :
    (g.GetPath dest dest diag).cells = [dest] := by
  rw [Grid.GetPath, if_pos hw]
  show getPathLoop g dest diag (2 * g.goWidth * g.goHeight + 2)
    [SNode.root dest dest.cost] [] = [dest]
  rw [show 2 * g.goWidth * g.goHeight + 2 = (2 * g.goWidth * g.goHeight + 1) + 1 from rfl,
    getPathLoop, if_pos (show (SNode.root dest dest.cost).cell = dest from rfl)]
  rfl

/-- Witness for C6 at a concrete input: a walkable 1x1 grid, searching from
its cell to itself. -/
theorem getPath_start_eq_dest_singleton_witness :
    (⟨0, 0, 1, true, ' '⟩ : Cell).walkable = true ∧
    ((Grid.mk [[⟨0, 0, 1, true, ' '⟩]]).GetPath
      ⟨0, 0, 1, true, ' '⟩ ⟨0, 0, 1, true, ' '⟩ false).cells = [⟨0, 0, 1, true, ' '⟩] :=
  ⟨rfl, getPath_start_eq_dest_singleton _ _ false rfl⟩

/-- C10: every Path returned by GetPath contains only walkable cells, and no
cell appears more than once in the sequence (each grid cell is enqueued at
most once per search via `checkedNodes`; only the destination can be enqueued
a second time, and such a node never reaches the reconstruction). -/
theorem getPath_cells_walkable_and_nodup (g : Grid) (start dest : Cell) (diag : Bool) :
    (∀ c ∈ (g.GetPath start dest diag).cells, c.walkable = true) ∧
    ((g.GetPath start dest diag).cells).Nodup := by
  by_cases h : (g.GetPath start dest diag).cells = []
  · rw [h]
    exact ⟨fun c hc => absurd hc (List.not_mem_nil c), List.nodup_nil⟩
  · obtain ⟨_, _, hnd, hwalk⟩ := getPath_sound g start dest diag h
    exact ⟨hwalk, hnd⟩

/-- Witness for C10 at a concrete input: the diagonal search across a
walkable 2x2 grid yields a duplicate-free path of walkable cells. -/
theorem getPath_cells_walkable_and_nodup_witness :
    (∀ c ∈ ((Grid.mk [[⟨0, 0, 1, true, ' '⟩, ⟨1, 0, 1, true, ' '⟩],
        [⟨0, 1, 1, true, ' '⟩, ⟨1, 1, 1, true, ' '⟩]]).GetPath
        ⟨0, 0, 1, true, ' '⟩ ⟨1, 1, 1, true, ' '⟩ true).cells, c.walkable = true) ∧
    (((Grid.mk [[⟨0, 0, 1, true, ' '⟩, ⟨1, 0, 1, true, ' '⟩],
        [⟨0, 1, 1, true, ' '⟩, ⟨1, 1, 1, true, ' '⟩]]).GetPath
        ⟨0, 0, 1, true, ' '⟩ ⟨1, 1, 1, true, ' '⟩ true).cells).Nodup :=
  getPath_cells_walkable_and_nodup
    (Grid.mk [[⟨0, 0, 1, true, ' '⟩, ⟨1, 0, 1, true, ' '⟩],
      [⟨0, 1, 1, true, ' '⟩, ⟨1, 1, 1, true, ' '⟩]])
    ⟨0, 0, 1, true, ' '⟩ ⟨1, 1, 1, true, ' '⟩ true

/-- C9: the search never mutates the grid.  In the state-passing embedding,
which threads the grid through every loop iteration exactly as the Go loop
body does (the body only reads `m` and the cells), the grid component of the
final state is the input grid — hence every cell's X, Y, Cost, Walkable and
Character fields and the grid structure are unchanged by a search. -/
theorem getPathS_grid_unchanged (g : Grid) (start dest : Cell) (diag : Bool) :
    (g.GetPathS start dest diag).1 = g := by
  rw [Grid.GetPathS]
  by_cases hw : dest.walkable = true
  · rw [if_pos hw]
    show (getPathLoopS start diag (2 * g.goWidth * g.goHeight + 2)
      (g, [SNode.root dest dest.cost], [])).1 = g
    exact getPathLoopS_fst start diag _ _
  · rw [if_neg hw]

/-- C8: Reverse is an involution: reversing a Path twice restores it (the
cell sequence and also the untouched cursor). -/
theorem path_reverse_reverse (p : Path) : p.Reverse.Reverse = p := by
  cases p with
  | mk cells idx =>
    show (⟨revCells (revCells cells), idx⟩ : Path) = ⟨cells, idx⟩
    rw [revCells_eq_reverse, revCells_eq_reverse, List.reverse_reverse]

lemma indexCells_isSome (p : Path) (i : Int) (h0 : 0 ≤ i)
    (h1 : i < (p.cells.length : Int)) : (p.indexCells i).isSome = true := by
  rw [Path.indexCells, if_neg (not_lt.mpr h0)]
  have hlt : i.toNat < p.cells.length := by omega
  rw [List.get?_eq_get hlt]
  rfl

/-- Counterexample for C7: on the empty Path, `Current`, `Next` and `Prev` all
index the empty cell slice (the clamp in `Next` even drives `CurrentIndex` to
-1), which in Go is an index-out-of-range panic — here modelled by the `none`
result of `indexCells` (Go returns `*Cell` and has no non-crashing absent
result for this expression).  So the cursor operations do crash on the empty
Path, contrary to the claim. -/
theorem path_cursor_empty_path_crashes :
    ((Path.mk [] 0).Next).2 = none ∧ ((Path.mk [] 0).Next).1.currentIndex = -1 ∧
    ((Path.mk [] 0).Prev).2 = none ∧ (Path.mk [] 0).Current = none := by decide

/-- C7 amended: for every non-empty Path whose cursor is at a valid index,
`Next` never moves the cursor past the last valid index, `Prev` never moves
it below 0, and all three accesses succeed (no crash). -/
theorem path_cursor_safe_on_nonempty (p : Path) (h1 : p.cells ≠ [])
    (h2 : 0 ≤ p.currentIndex) (h3 : p.currentIndex < (p.cells.length : Int)) :
    (0 ≤ (p.Next).1.currentIndex ∧ (p.Next).1.currentIndex < (p.cells.length : Int) ∧
      ((p.Next).2).isSome = true) ∧
    (0 ≤ (p.Prev).1.currentIndex ∧ (p.Prev).1.currentIndex < (p.cells.length : Int) ∧
      ((p.Prev).2).isSome = true) ∧
    (p.Current).isSome = true := by
  have hlen : 0 < p.cells.length := List.length_pos.mpr h1
  refine ⟨?_, ?_, indexCells_isSome p p.currentIndex h2 h3⟩
  · simp only [Path.Next]
    by_cases hc : (p.cells.length : Int) ≤ p.currentIndex + 1
    · rw [if_pos hc]
      exact ⟨by omega, by omega,
        indexCells_isSome ⟨p.cells, (p.cells.length : Int) - 1⟩ _ (by omega)
          (by show _ < (p.cells.length : Int); omega)⟩
    · rw [if_neg hc]
      exact ⟨by omega, by omega,
        indexCells_isSome ⟨p.cells, p.currentIndex + 1⟩ _ (by omega)
          (by show _ < (p.cells.length : Int); omega)⟩
  · simp only [Path.Prev]
    by_cases hc : p.currentIndex - 1 < 0
    · rw [if_pos hc]
      exact ⟨le_refl 0, by omega,
        indexCells_isSome ⟨p.cells, 0⟩ 0 (le_refl 0)
          (by show (0 : Int) < (p.cells.length : Int); omega)⟩
    · rw [if_neg hc]
      exact ⟨by omega, by omega,
        indexCells_isSome ⟨p.cells, p.currentIndex - 1⟩ _ (by omega)
          (by show _ < (p.cells.length : Int); omega)⟩

/-- Witness for the amended C7 at a concrete input: a one-cell Path with the
cursor at 0. -/
theorem path_cursor_safe_on_nonempty_witness :
    (Path.mk [⟨0, 0, 1, true, ' '⟩] 0).cells ≠ [] ∧
    (0 : Int) ≤ (Path.mk [⟨0, 0, 1, true, ' '⟩] 0).currentIndex ∧
    ((Path.mk [⟨0, 0, 1, true, ' '⟩] 0).Current).isSome = true :=
  ⟨by decide, by decide,
   (path_cursor_safe_on_nonempty (Path.mk [⟨0, 0, 1, true, ' '⟩] 0)
     (by decide) (by decide) (by decide)).2.2⟩

lemma width0_of_ne_nil (g : Grid) (h : g.data ≠ []) : g.width0 = some g.goWidth := by
  cases hd : g.data with
  | nil => exact absurd hd h
  | cons r rs =>
    rw [Grid.width0, Grid.goWidth, hd]
    rfl

lemma wf_parts (g : Grid) (hwf : g.WellFormed) :
    g.data ≠ [] ∧ (∀ row ∈ g.data, row.length = g.goWidth) ∧
    ∀ j ∈ List.range g.data.length, ∀ i ∈ List.range g.goWidth,
      (match (g.data.get? j).bind (fun row => row.get? i) with
        | some c => c.x == (i : Int) && c.y == (j : Int)
        | none => false) = true := by
  rw [Grid.WellFormed, Grid.wfB] at hwf
  rw [Bool.and_eq_true, Bool.and_eq_true] at hwf
  obtain ⟨⟨hne, hlen⟩, hcoord⟩ := hwf
  refine ⟨?_, ?_, ?_⟩
  · intro hd
    rw [hd] at hne
    exact Bool.false_ne_true hne
  · intro row hrow
    have := List.all_eq_true.mp hlen row hrow
    exact beq_iff_eq.mp this
  · intro j hj i hi
    exact List.all_eq_true.mp (List.all_eq_true.mp hcoord j hj) i hi

/-- Under well-formedness, the cell stored at column `i` of row `j` records
coordinates `(i, j)`. -/
lemma wf_cell (g : Grid) (hwf : g.WellFormed) (j i : Nat) (row : List Cell)
    (c : Cell) (hrow : g.data.get? j = some row) (hc : row.get? i = some c) :
    c.x = (i : Int) ∧ c.y = (j : Int) := by
  obtain ⟨-, hlen, hcoord⟩ := wf_parts g hwf
  have hj : j < g.data.length := by
    rcases List.get?_eq_some.mp hrow with ⟨h, -⟩
    exact h
  have hrowlen : row.length = g.goWidth := hlen row (List.get?_mem hrow)
  have hi : i < g.goWidth := by
    rcases List.get?_eq_some.mp hc with ⟨h, -⟩
    rw [hrowlen] at h
    exact h
  have hm := hcoord j (List.mem_range.mpr hj) i (List.mem_range.mpr hi)
  have hbind : (g.data.get? j).bind (fun row => row.get? i) = some c := by
    rw [hrow]
    exact hc
  rw [hbind] at hm
  have hm' : (c.x == (i : Int) && c.y == (j : Int)) = true := hm
  rw [Bool.and_eq_true] at hm'
  exact ⟨beq_iff_eq.mp hm'.1, beq_iff_eq.mp hm'.2⟩

lemma cellAt_some (g : Grid) (hwf : g.WellFormed) (x y : Int) (hx : 0 ≤ x)
    (hy : 0 ≤ y) (hxw : x < (g.goWidth : Int)) (hyh : y < (g.goHeight : Int)) :
    ∃ c, g.cellAt x y = some c ∧ c.x = x ∧ c.y = y := by
  obtain ⟨-, hlen, -⟩ := wf_parts g hwf
  have hylt : y.toNat < g.data.length := by
    rw [Grid.goHeight] at hyh
    omega
  have hrow : g.data.get? y.toNat = some (g.data.get ⟨y.toNat, hylt⟩) :=
    List.get?_eq_get hylt
  set row := g.data.get ⟨y.toNat, hylt⟩ with hrowdef
  have hrowlen : row.length = g.goWidth := hlen row (List.get?_mem hrow)
  have hxlt : x.toNat < row.length := by
    rw [hrowlen]
    omega
  have hcell : row.get? x.toNat = some (row.get ⟨x.toNat, hxlt⟩) :=
    List.get?_eq_get hxlt
  refine ⟨row.get ⟨x.toNat, hxlt⟩, ?_, ?_⟩
  · rw [Grid.cellAt, if_pos ⟨hx, hy⟩, hrow]
    exact hcell
  · obtain ⟨hcx, hcy⟩ := wf_cell g hwf y.toNat x.toNat row _ hrow hcell
    constructor
    · rw [hcx]
      omega
    · rw [hcy]
      omega

/-- Counterexample for C5: on a grid with zero rows (e.g. `NewGrid(w, 0)`
builds one), the coordinate (0,0) is out of bounds (`0 >= Height()`), so by
the claim `Get` should return nil; instead `Get(0, 0)` panics, because
`m.Width()` evaluates `len(m.Data[0])` on the empty row slice.  The panic is
the outer `none` of the `GoGet` model, which is not the nil result
`some none`. -/
theorem goGet_rowless_grid_panics :
    ((Grid.mk []).goHeight : Int) ≤ 0 ∧ (Grid.mk []).GoGet 0 0 = none := by decide

/-- C5 amended: for every well-formed Grid (at least one row, rectangular,
coordinates recorded correctly — every constructor-built grid is such),
`Get(x, y)` returns nil exactly when `x < 0` or `y < 0` or `x >= width` or
`y >= height`, and otherwise returns the unique Cell at that coordinate. -/
theorem goGet_nil_iff_out_of_bounds (g : Grid) (x y : Int) (hwf : g.WellFormed) :
    (g.GoGet x y = some none ↔
      (x < 0 ∨ y < 0 ∨ (g.goWidth : Int) ≤ x ∨ (g.goHeight : Int) ≤ y)) ∧
    (¬(x < 0 ∨ y < 0 ∨ (g.goWidth : Int) ≤ x ∨ (g.goHeight : Int) ≤ y) →
      ∃ c, g.GoGet x y = some (some c) ∧ c.x = x ∧ c.y = y ∧
        ∀ row ∈ g.data, ∀ c' ∈ row, c'.x = x → c'.y = y → c' = c) := by
  obtain ⟨hne, hlen, -⟩ := wf_parts g hwf
  have hw0 : g.width0 = some g.goWidth := width0_of_ne_nil g hne
  by_cases hneg : x < 0 ∨ y < 0
  · constructor
    · rw [Grid.GoGet, if_pos hneg]
      simp only [true_iff]
      exact Or.elim hneg (fun h => Or.inl h) (fun h => Or.inr (Or.inl h))
    · intro hno
      exfalso
      exact hno (Or.elim hneg (fun h => Or.inl h) (fun h => Or.inr (Or.inl h)))
  · have hx : 0 ≤ x := by omega
    have hy : 0 ≤ y := by omega
    have hget : g.GoGet x y =
        (if (g.goWidth : Int) ≤ x ∨ (g.goHeight : Int) ≤ y then some none
         else match g.cellAt x y with
           | none => none
           | some c => some (some c)) := by
      rw [Grid.GoGet, if_neg hneg, hw0]
    by_cases hout : (g.goWidth : Int) ≤ x ∨ (g.goHeight : Int) ≤ y
    · rw [hget, if_pos hout]
      constructor
      · simp only [true_iff]
        exact Or.inr (Or.inr hout)
      · intro hno
        exfalso
        exact hno (Or.inr (Or.inr hout))
    · have hxw : x < (g.goWidth : Int) := by omega
      have hyh : y < (g.goHeight : Int) := by omega
      obtain ⟨c, hc, hcx, hcy⟩ := cellAt_some g hwf x y hx hy hxw hyh
      rw [hget, if_neg hout, hc]
      constructor
      · constructor
        · intro habs
          exact absurd (Option.some.inj habs) (by simp)
        · intro habs
          exfalso
          omega
      · intro _
        refine ⟨c, rfl, hcx, hcy, ?_⟩
        intro row hrow c' hc' hcx' hcy'
        obtain ⟨j, hj⟩ := List.get?_of_mem hrow
        obtain ⟨i, hi⟩ := List.get?_of_mem hc'
        obtain ⟨hix, hiy⟩ := wf_cell g hwf j i row c' hj hi
        have hieq : i = x.toNat := by omega
        have hjeq : j = y.toNat := by omega
        have hcell' : g.cellAt x y = some c' := by
          rw [Grid.cellAt, if_pos ⟨hx, hy⟩, ← hjeq, hj, ← hieq]
          exact hi
        rw [hc] at hcell'
        exact (Option.some.inj hcell').symm

/-- Witness for the amended C5 at concrete inputs: on the well-formed 2x2
grid `NewGrid 2 2`, the in-bounds lookup (1, 0) returns the cell there and
the out-of-bounds lookup (2, 0) returns nil. -/
theorem goGet_nil_iff_out_of_bounds_witness :
    (NewGrid 2 2).WellFormed ∧
    ((NewGrid 2 2).GoGet 2 0 = some none ↔
      ((2 : Int) < 0 ∨ (0 : Int) < 0 ∨ ((NewGrid 2 2).goWidth : Int) ≤ 2 ∨
        ((NewGrid 2 2).goHeight : Int) ≤ 0)) ∧
    ∃ c, (NewGrid 2 2).GoGet 1 0 = some (some c) ∧ c.x = 1 ∧ c.y = 0 ∧
      ∀ row ∈ (NewGrid 2 2).data, ∀ c' ∈ row, c'.x = 1 → c'.y = 0 → c' = c :=
  ⟨by decide,
   (goGet_nil_iff_out_of_bounds (NewGrid 2 2) 2 0 (by decide)).1,
   (goGet_nil_iff_out_of_bounds (NewGrid 2 2) 1 0 (by decide)).2 (by decide)⟩

/-- C3 amended: during expansion, every newly enqueued node — diagonal or
orthogonal alike — carries accumulated cost `c.Cost + node.Cost`, the
neighbor's cost plus the current node's accumulated cost, with no diagonal
penalty (costs are Go `int`s; no 0.414 constant exists in the code). -/
theorem expand_new_node_cost (g : Grid) (node : SNode Int) (diag : Bool)
    (op : List (SNode Int)) (ch : List Cell) (n : SNode Int)
    (hn : n ∈ (expand g node diag (op, ch)).1) (hnew : n ∉ op) :
    ∃ c : Cell, n = SNode.child c node (c.cost + node.cost) := by
  obtain ⟨-, -, hopen⟩ := foldTryAdd_spec node (nbrCells g diag node.cell) op ch
  rcases hopen n hn with hold | ⟨c, -, -, -, hne, -⟩
  · exact absurd hold hnew
  · exact ⟨c, hne⟩

/-- Witness for the amended C3 at a concrete input: expanding the root node
at (1,1) of a walkable 2x2 grid with diagonals on, the enqueued node for the
up-left diagonal neighbor (0,0) has cost 1 + 1 = 2. -/
theorem expand_new_node_cost_witness :
    SNode.child (⟨0, 0, 1, true, ' '⟩ : Cell)
        (SNode.root (⟨1, 1, 1, true, ' '⟩ : Cell) 1) 2 ∈
      (expand (Grid.mk [[⟨0, 0, 1, true, ' '⟩, ⟨1, 0, 1, true, ' '⟩],
          [⟨0, 1, 1, true, ' '⟩, ⟨1, 1, 1, true, ' '⟩]])
        (SNode.root (⟨1, 1, 1, true, ' '⟩ : Cell) 1) true ([], [])).1 ∧
    ∃ c : Cell, SNode.child (⟨0, 0, 1, true, ' '⟩ : Cell)
        (SNode.root (⟨1, 1, 1, true, ' '⟩ : Cell) 1) 2 =
      SNode.child c (SNode.root (⟨1, 1, 1, true, ' '⟩ : Cell) 1)
        (c.cost + (SNode.root (⟨1, 1, 1, true, ' '⟩ : Cell) 1).cost) :=
  ⟨by decide,
   expand_new_node_cost
     (Grid.mk [[⟨0, 0, 1, true, ' '⟩, ⟨1, 0, 1, true, ' '⟩],
       [⟨0, 1, 1, true, ' '⟩, ⟨1, 1, 1, true, ' '⟩]])
     (SNode.root (⟨1, 1, 1, true, ' '⟩ : Cell) 1) true [] []
     (SNode.child (⟨0, 0, 1, true, ' '⟩ : Cell)
       (SNode.root (⟨1, 1, 1, true, ' '⟩ : Cell) 1) 2)
     (by decide) (by decide)⟩

/-- Counterexample for C3: expanding the destination-rooted node at (1,1)
(accumulated cost 1) of a fully walkable, cost-1 2x2 grid with diagonals
enabled enqueues the left neighbor (0,1), the up neighbor (1,0) and the
up-left diagonal neighbor (0,0), each with accumulated cost 2 — the diagonal
neighbor's cost is `c.Cost + node.Cost = 1 + 1 = 2`, an integer, not the
claimed `1 + 1 + 0.414 = 2.414`. -/
theorem expand_diagonal_cost_counterexample :
    (expand (Grid.mk [[⟨0, 0, 1, true, ' '⟩, ⟨1, 0, 1, true, ' '⟩],
          [⟨0, 1, 1, true, ' '⟩, ⟨1, 1, 1, true, ' '⟩]])
        (SNode.root (⟨1, 1, 1, true, ' '⟩ : Cell) 1) true ([], [])).1 =
      [SNode.child (⟨0, 1, 1, true, ' '⟩ : Cell)
          (SNode.root (⟨1, 1, 1, true, ' '⟩ : Cell) 1) 2,
       SNode.child (⟨1, 0, 1, true, ' '⟩ : Cell)
          (SNode.root (⟨1, 1, 1, true, ' '⟩ : Cell) 1) 2,
       SNode.child (⟨0, 0, 1, true, ' '⟩ : Cell)
          (SNode.root (⟨1, 1, 1, true, ' '⟩ : Cell) 1) 2] ∧
    ((2 : ℚ) ≠ (1 : ℚ) + 1 + 414 / 1000) :=
  ⟨by decide, by norm_num⟩

lemma cellAt_coords (g : Grid) (hwf : g.WellFormed) (x y : Int) (c : Cell)
    (h : g.cellAt x y = some c) : c.x = x ∧ c.y = y := by
  rw [Grid.cellAt] at h
  by_cases hxy : 0 ≤ x ∧ 0 ≤ y
  · rw [if_pos hxy] at h
    cases hrow : g.data.get? y.toNat with
    | none =>
      rw [hrow] at h
      exact absurd h (by simp)
    | some row =>
      rw [hrow] at h
      have h' : row.get? x.toNat = some c := h
      obtain ⟨hcx, hcy⟩ := wf_cell g hwf y.toNat x.toNat row c hrow h'
      constructor <;> omega
  · rw [if_neg hxy] at h
    exact absurd h (by simp)

lemma specFold_open (g : Grid) (wb : Bool) (node : SNode ℚ) :
    ∀ (L : List (Int × Int × Bool)) (op : List (SNode ℚ)) (ch : List Cell),
      ∀ n ∈ (L.foldl (fun s o => specTryAdd g wb node o s) (op, ch)).1,
        n ∈ op ∨ ∃ o ∈ L, ∃ c,
          g.cellAt (node.cell.x + o.1) (node.cell.y + o.2.1) = some c ∧
          specStepOK g wb node.cell o.1 o.2.1 o.2.2 = true ∧
          n = SNode.child c node
            ((c.cost : ℚ) + node.cost + (if o.2.2 = true then diagPenalty else 0)) := by
  intro L
  induction L with
  | nil =>
    intro op ch n hn
    exact Or.inl hn
  | cons o₀ L' ih =>
    intro op ch n hn
    rw [List.foldl_cons] at hn
    cases hcell : g.cellAt (node.cell.x + o₀.1) (node.cell.y + o₀.2.1) with
    | none =>
      have heq : specTryAdd g wb node o₀ (op, ch) = (op, ch) := by
        rw [specTryAdd, hcell]
      rw [heq] at hn
      rcases ih op ch n hn with hold | ⟨o, hoL, rest⟩
      · exact Or.inl hold
      · exact Or.inr ⟨o, List.mem_cons_of_mem _ hoL, rest⟩
    | some c =>
      by_cases hok : c.walkable = true ∧ c ∉ ch ∧
          specStepOK g wb node.cell o₀.1 o₀.2.1 o₀.2.2 = true
      · have heq : specTryAdd g wb node o₀ (op, ch) =
            (op ++ [SNode.child c node
              ((c.cost : ℚ) + node.cost + (if o₀.2.2 = true then diagPenalty else 0))],
             ch ++ [c]) := by
          rw [specTryAdd, hcell]
          exact if_pos hok
        rw [heq] at hn
        rcases ih _ _ n hn with hold | ⟨o, hoL, rest⟩
        · rcases List.mem_append.mp hold with hop | hnew
          · exact Or.inl hop
          · refine Or.inr ⟨o₀, List.mem_cons_self _ _, c, hcell, hok.2.2,
              List.mem_singleton.mp hnew⟩
        · exact Or.inr ⟨o, List.mem_cons_of_mem _ hoL, rest⟩
      · have heq : specTryAdd g wb node o₀ (op, ch) = (op, ch) := by
          rw [specTryAdd, hcell]
          exact if_neg hok
        rw [heq] at hn
        rcases ih op ch n hn with hold | ⟨o, hoL, rest⟩
        · exact Or.inl hold
        · exact Or.inr ⟨o, List.mem_cons_of_mem _ hoL, rest⟩

lemma specStep_preserves (g : Grid) (hwf : g.WellFormed) (diag : Bool)
    (node : SNode ℚ) (rest : List (SNode ℚ)) (checked : List Cell)
    (hInv : ∀ n ∈ node :: rest, SpecNodeOK g n) :
    ∀ n ∈ sortByCost (specExpand g diag true node (rest, checked)).1,
      SpecNodeOK g n := by
  intro n hn
  rw [mem_sortByCost] at hn
  have hnode : SpecNodeOK g node := hInv node (List.mem_cons_self _ _)
  rcases specFold_open g true node _ rest checked n hn with
    hold | ⟨o, hoL, c, hcell, hok, hne⟩
  · exact hInv n (List.mem_cons_of_mem _ hold)
  · subst hne
    obtain ⟨hcx, hcy⟩ := cellAt_coords g hwf _ _ c hcell
    have hchain : (SNode.child c node
        ((c.cost : ℚ) + node.cost + (if o.2.2 = true then diagPenalty else 0))).chain =
        c :: node.chain := rfl
    constructor
    · intro x hx
      rw [hchain] at hx
      rcases List.mem_cons.mp hx with rfl | hx'
      · rw [hcx, hcy]
        exact hcell
      · exact hnode.1 x hx'
    · rw [hchain, SNode.chain_eq_cons node, List.chain'_cons]
      refine ⟨?_, by rw [← SNode.chain_eq_cons node]; exact hnode.2⟩
      intro hdiag
      obtain ⟨hdx, hdy⟩ := hdiag
      rcases List.mem_append.mp hoL with h4 | hd
      · -- orthogonal offsets: one coordinate difference is 0, contradiction
        exfalso
        simp only [specOrthOffsets, List.mem_cons, List.not_mem_nil, or_false] at h4
        rcases h4 with rfl | rfl | rfl | rfl <;> simp at hcx hcy <;> omega
      · have hdos : o ∈ specDiagOffsets := by
          cases diag with
          | false => exact absurd hd (by simp)
          | true => exact hd
        -- diagonal offsets: the gate requires both flanking cells walkable
        have hgate : (walkableAt g (node.cell.x + o.1) node.cell.y &&
            walkableAt g node.cell.x (node.cell.y + o.2.1)) = true := by
          have hdd : o.2.2 = true := by
            simp only [specDiagOffsets, List.mem_cons, List.not_mem_nil, or_false] at hdos
            rcases hdos with rfl | rfl | rfl | rfl <;> rfl
          rw [specStepOK, hdd] at hok
          simpa using hok
        rw [Bool.and_eq_true] at hgate
        exact Or.inl (by rw [hcx]; exact hgate.1)

lemma findPathLoop_sound (g : Grid) (hwf : g.WellFormed) (start : Cell)
    (diag : Bool) :
    ∀ (fuel : Nat) (op : List (SNode ℚ)) (checked : List Cell),
      (∀ n ∈ op, SpecNodeOK g n) →
      ∀ cs, findPathLoop g start diag true fuel op checked = some cs →
        List.Chain' (fun a b => diagStep a b → cornerOK g a b) cs := by
  intro fuel
  induction fuel with
  | zero =>
    intro op checked _ cs h
    exact absurd h (by rw [findPathLoop]; simp)
  | succ fuel ih =>
    intro op checked hInv cs h
    cases op with
    | nil => exact absurd h (by rw [findPathLoop]; simp)
    | cons n₀ rest =>
      by_cases hst : n₀.cell = start
      · rw [findPathLoop, if_pos hst] at h
        have := Option.some.inj h
        rw [← this]
        exact (hInv n₀ (List.mem_cons_self _ _)).2
      · rw [findPathLoop, if_neg hst] at h
        exact ih _ _ (specStep_preserves g hwf diag n₀ rest checked hInv) cs h

/-- C4, settled against the spec-modelled `findPath` (the `wallsBlockDiagonals`
parameter does not exist in `src/`): when `wallsBlockDiagonals` is true, a
returned path never contains a diagonal step between two cells whose two
flanking orthogonal cells (for the up-left diagonal: the up cell and the left
cell) are both non-walkable. -/
theorem findPath_no_corner_cutting (g : Grid) (start dest : Cell) (diag : Bool)
    (p : Path) (hwf : g.WellFormed) (hdest : g.cellAt dest.x dest.y = some dest)
    (h : findPath g start dest diag true = some p) :
    List.Chain' (fun a b => diagStep a b → cornerOK g a b) p.cells := by
  rw [findPath] at h
  by_cases hwk : start.walkable = true ∧ dest.walkable = true
  · rw [if_pos hwk] at h
    cases hl : findPathLoop g start diag true (2 * g.goWidth * g.goHeight + 2)
        [SNode.root dest (dest.cost : ℚ)] [] with
    | none =>
      rw [hl] at h
      exact absurd h (by simp)
    | some cs =>
      rw [hl, Option.map_some'] at h
      have hp : (⟨cs, 0⟩ : Path) = p := Option.some.inj h
      rw [← hp]
      show List.Chain' _ cs
      refine findPathLoop_sound g hwf start diag _ _ [] ?_ cs hl
      intro n hn
      rw [List.mem_singleton] at hn
      subst hn
      constructor
      · intro c hc
        rw [show (SNode.root dest ((dest.cost : ℚ))).chain = [dest] from rfl,
          List.mem_singleton] at hc
        subst hc
        exact hdest
      · exact List.chain'_singleton dest
  · rw [if_neg hwk] at h
    exact absurd h (by simp)

/-- Witness for C4 at a concrete input: the modelled search on a walkable 1x1
grid from its cell to itself succeeds with `wallsBlockDiagonals` on, and the
resulting one-cell path contains no blocked diagonal step. -/
theorem findPath_no_corner_cutting_witness :
    (Grid.mk [[⟨0, 0, 1, true, ' '⟩]]).WellFormed ∧
    (Grid.mk [[⟨0, 0, 1, true, ' '⟩]]).cellAt 0 0 = some ⟨0, 0, 1, true, ' '⟩ ∧
    findPath (Grid.mk [[⟨0, 0, 1, true, ' '⟩]]) ⟨0, 0, 1, true, ' '⟩
      ⟨0, 0, 1, true, ' '⟩ true true = some ⟨[⟨0, 0, 1, true, ' '⟩], 0⟩ ∧
    List.Chain' (fun a b => diagStep a b → cornerOK (Grid.mk [[⟨0, 0, 1, true, ' '⟩]]) a b)
      (Path.mk [⟨0, 0, 1, true, ' '⟩] 0).cells :=
  ⟨by decide, by decide, by decide,
   findPath_no_corner_cutting (Grid.mk [[⟨0, 0, 1, true, ' '⟩]])
     ⟨0, 0, 1, true, ' '⟩ ⟨0, 0, 1, true, ' '⟩ true ⟨[⟨0, 0, 1, true, ' '⟩], 0⟩
     (by decide) (by decide) (by decide)⟩

/-!
Fuel adequacy.  The Go `for {}` loop of `GetPath` is unbounded; the embedding
runs it on fuel `2*width*height + 2`.  The lemmas below justify that choice:
every enqueue after the initial one inserts a fresh grid cell into the
duplicate-free `checkedNodes`, so on a well-formed grid the quantity
`|openNodes| + 2*(width*height - |checkedNodes|)` strictly decreases every
iteration, and beyond it extra fuel never changes the result.
-/

lemma length_insertByCost {κ : Type} [LT κ] [DecidableRel ((· < ·) : κ → κ → Prop)]
    (n : SNode κ) : ∀ l : List (SNode κ), (insertByCost n l).length = l.length + 1 := by
  intro l
  induction l with
  | nil => rfl
  | cons m ms ih =>
    by_cases h : n.cost < m.cost
    · simp [insertByCost, h]
    · simp [insertByCost, h, ih]

lemma length_sortByCost {κ : Type} [LT κ] [DecidableRel ((· < ·) : κ → κ → Prop)] :
    ∀ l : List (SNode κ), (sortByCost l).length = l.length := by
  intro l
  induction l with
  | nil => rfl
  | cons n ns ih => simp [sortByCost, length_insertByCost, ih]

lemma nodup_subset_length_le {α : Type} [DecidableEq α] (l m : List α)
    (hnd : l.Nodup) (hsub : ∀ x ∈ l, x ∈ m) : l.length ≤ m.length := by
  have h1 : l.toFinset.card = l.length := List.toFinset_card_of_nodup hnd
  have h2 : l.toFinset ⊆ m.toFinset := by
    intro x hx
    rw [List.mem_toFinset] at hx ⊢
    exact hsub x hx
  calc l.length = l.toFinset.card := h1.symm
    _ ≤ m.toFinset.card := Finset.card_le_card h2
    _ ≤ m.length := List.toFinset_card_le m

lemma cellAt_mem_gridCells (g : Grid) (x y : Int) (c : Cell)
    (h : g.cellAt x y = some c) : c ∈ g.gridCells := by
  rw [Grid.cellAt] at h
  by_cases hxy : 0 ≤ x ∧ 0 ≤ y
  · rw [if_pos hxy] at h
    cases hrow : g.data.get? y.toNat with
    | none =>
      rw [hrow] at h
      exact absurd h (by simp)
    | some row =>
      rw [hrow] at h
      have h' : row.get? x.toNat = some c := h
      rw [Grid.gridCells, List.mem_flatten]
      exact ⟨row, List.get?_mem hrow, List.get?_mem h'⟩
  · rw [if_neg hxy] at h
    exact absurd h (by simp)

lemma nbrCells_are_cellD (g : Grid) (diag : Bool) (b : Cell) :
    ∀ c ∈ nbrCells g diag b, ∃ x y, c = g.cellD x y := by
  intro c hc
  rw [nbrCells] at hc
  repeat rw [List.mem_append] at hc
  rcases hc with ((((h | h) | h) | h) | h)
  · by_cases hg : 0 < b.x
    · rw [if_pos hg, List.mem_singleton] at h
      exact ⟨_, _, h⟩
    · rw [if_neg hg] at h
      exact absurd h (List.not_mem_nil c)
  · by_cases hg : b.x < (g.goWidth : Int) - 1
    · rw [if_pos hg, List.mem_singleton] at h
      exact ⟨_, _, h⟩
    · rw [if_neg hg] at h
      exact absurd h (List.not_mem_nil c)
  · by_cases hg : 0 < b.y
    · rw [if_pos hg, List.mem_singleton] at h
      exact ⟨_, _, h⟩
    · rw [if_neg hg] at h
      exact absurd h (List.not_mem_nil c)
  · by_cases hg : b.y < (g.goHeight : Int) - 1
    · rw [if_pos hg, List.mem_singleton] at h
      exact ⟨_, _, h⟩
    · rw [if_neg hg] at h
      exact absurd h (List.not_mem_nil c)
  · cases diag with
    | false => exact absurd h (by simp)
    | true =>
      simp only [if_true] at h
      repeat rw [List.mem_append] at h
      rcases h with ((h | h) | h) | h <;>
        · split at h
          · rw [List.mem_singleton] at h
            exact ⟨_, _, h⟩
          · exact absurd h (List.not_mem_nil c)

lemma walkable_nbr_mem_gridCells (g : Grid) (diag : Bool) (b : Cell) (c : Cell)
    (hc : c ∈ nbrCells g diag b) (hw : c.walkable = true) : c ∈ g.gridCells := by
  obtain ⟨x, y, rfl⟩ := nbrCells_are_cellD g diag b c hc
  rw [Grid.cellD] at hw ⊢
  cases hat : g.cellAt x y with
  | none =>
    rw [hat] at hw
    simp at hw
  | some c' =>
    rw [hat] at hw
    exact cellAt_mem_gridCells g x y c' hat

lemma foldTryAdd_measure (g : Grid) (node : SNode Int) :
    ∀ (L : List Cell) (op : List (SNode Int)) (ch : List Cell),
      (∀ c ∈ L, c.walkable = true → c ∈ g.gridCells) →
      ch.Nodup → (∀ c ∈ ch, c ∈ g.gridCells) →
      (L.foldl (fun s c => tryAdd node c s) (op, ch)).2.Nodup ∧
      (∀ c ∈ (L.foldl (fun s c => tryAdd node c s) (op, ch)).2, c ∈ g.gridCells) ∧
      (L.foldl (fun s c => tryAdd node c s) (op, ch)).1.length +
          2 * (g.gridCells.length - (L.foldl (fun s c => tryAdd node c s) (op, ch)).2.length) ≤
        op.length + 2 * (g.gridCells.length - ch.length) := by
  intro L
  induction L with
  | nil =>
    intro op ch _ hnd hsub
    exact ⟨hnd, hsub, le_refl _⟩
  | cons c₀ L' ih =>
    intro op ch hL hnd hsub
    rw [List.foldl_cons]
    by_cases h : c₀.walkable = true ∧ c₀ ∉ ch
    · rw [show tryAdd node c₀ (op, ch) =
        (op ++ [SNode.child c₀ node (c₀.cost + node.cost)], ch ++ [c₀]) from by
          rw [tryAdd, if_pos h]]
      have hnd' : (ch ++ [c₀]).Nodup := by
        rw [List.nodup_append]
        refine ⟨hnd, List.nodup_singleton c₀, ?_⟩
        intro a ha hb
        rw [List.mem_singleton] at hb
        subst hb
        exact h.2 ha
      have hsub' : ∀ c ∈ ch ++ [c₀], c ∈ g.gridCells := by
        intro c hc
        rcases List.mem_append.mp hc with hc | hc
        · exact hsub c hc
        · rw [List.mem_singleton] at hc
          rw [hc]
          exact hL c₀ (List.mem_cons_self _ _) h.1
      obtain ⟨r1, r2, r3⟩ := ih (op ++ [SNode.child c₀ node (c₀.cost + node.cost)])
        (ch ++ [c₀]) (fun c hc hw => hL c (List.mem_cons_of_mem _ hc) hw) hnd' hsub'
      refine ⟨r1, r2, le_trans r3 ?_⟩
      have hble : (ch ++ [c₀]).length ≤ g.gridCells.length :=
        nodup_subset_length_le _ _ hnd' hsub'
      simp only [List.length_append, List.length_singleton] at hble ⊢
      omega
    · rw [show tryAdd node c₀ (op, ch) = (op, ch) from by rw [tryAdd, if_neg h]]
      exact ih op ch (fun c hc hw => hL c (List.mem_cons_of_mem _ hc) hw) hnd hsub

lemma getPathLoop_stable (g : Grid) (start : Cell) (diag : Bool) :
    ∀ (fuel : Nat) (op : List (SNode Int)) (checked : List Cell),
      checked.Nodup → (∀ c ∈ checked, c ∈ g.gridCells) →
      op.length + 2 * (g.gridCells.length - checked.length) ≤ fuel →
      getPathLoop g start diag (fuel + 1) op checked =
        getPathLoop g start diag fuel op checked := by
  intro fuel
  induction fuel with
  | zero =>
    intro op checked _ _ hle
    have hop : op = [] := by
      cases op with
      | nil => rfl
      | cons n rest => simp at hle
    subst hop
    rfl
  | succ fuel ih =>
    intro op checked hnd hsub hle
    cases op with
    | nil => rfl
    | cons n₀ rest =>
      by_cases h : n₀.cell = start
      · rw [getPathLoop, if_pos h, getPathLoop, if_pos h]
      · rw [getPathLoop, if_neg h, getPathLoop, if_neg h]
        obtain ⟨r1, r2, r3⟩ := foldTryAdd_measure g n₀ (nbrCells g diag n₀.cell)
          rest checked (fun c hc hw => walkable_nbr_mem_gridCells g diag n₀.cell c hc hw)
          hnd hsub
        apply ih _ _ r1 r2
        rw [length_sortByCost]
        have : rest.length + 2 * (g.gridCells.length - checked.length) ≤ fuel := by
          rw [List.length_cons] at hle
          omega
        exact le_trans r3 this

lemma wf_gridCells_length (g : Grid) (hwf : g.WellFormed) :
    g.gridCells.length = g.goWidth * g.goHeight := by
  obtain ⟨-, hlen, -⟩ := wf_parts g hwf
  rw [Grid.gridCells, List.length_flatten]
  have hsum : ∀ l : List (List Cell), (∀ row ∈ l, row.length = g.goWidth) →
      (l.map List.length).sum = l.length * g.goWidth := by
    intro l
    induction l with
    | nil =>
      intro _
      simp
    | cons r rs ih =>
      intro hl
      have hr : r.length = g.goWidth := hl r (List.mem_cons_self _ _)
      have hrs := ih (fun row hrow => hl row (List.mem_cons_of_mem _ hrow))
      simp only [List.map_cons, List.sum_cons, List.length_cons, hr, hrs]
      ring
  rw [hsum g.data hlen, Grid.goHeight]
  exact Nat.mul_comm _ _

/-- The embedding's fuel `2*width*height + 2` is adequate on well-formed
grids: giving the loop any amount of extra fuel produces the same path, so
the fueled embedding computes what the unbounded Go loop computes. -/
lemma getPath_fuel_irrelevant (g : Grid) (start dest : Cell) (diag : Bool)
    (hwf : g.WellFormed) (extra : Nat) :
    getPathLoop g start diag (2 * g.goWidth * g.goHeight + 2 + extra)
      [SNode.root dest dest.cost] [] =
    getPathLoop g start diag (2 * g.goWidth * g.goHeight + 2)
      [SNode.root dest dest.cost] [] := by
  induction extra with
  | zero => rfl
  | succ extra ih =>
    rw [show 2 * g.goWidth * g.goHeight + 2 + (extra + 1) =
      (2 * g.goWidth * g.goHeight + 2 + extra) + 1 from rfl]
    rw [← ih]
    apply getPathLoop_stable g start diag _ _ _ List.nodup_nil
      (fun c hc => absurd hc (List.not_mem_nil c))
    have hk := wf_gridCells_length g hwf
    have hassoc : 2 * g.goWidth * g.goHeight = 2 * (g.goWidth * g.goHeight) :=
      Nat.mul_assoc 2 _ _
    simp only [List.length_singleton, List.length_nil]
    omega

end PathsLib

